import Mathlib

/-!
Verification of the firehose tracing subsystem of the `go-ethereum-fh` fork.

The Go sources are shallowly embedded: byte slices become `List Nat` (each
entry a byte value), Go strings become Lean `String`, `*big.Int` becomes
`Option Nat` (`none` models a nil pointer; firehose only formats non-negative
values), and side-effecting emission of trace lines becomes explicit lists of
event values returned by the embedded functions.
-/

/-! ### Value formatters (`firehose/printer.go`: `Hex`, `BigInt`, helpers) -/

/-- Lowercase hexadecimal digit character for a nibble, as produced by Go
`encoding/hex` (`0`-`9` then `a`-`f`). -/
def hexDigit (n : Nat) : Char :=
  if n < 10 then Char.ofNat (48 + n) else Char.ofNat (87 + n)

/-- Character list of the lowercase hex encoding of a byte slice, high nibble
first for each byte (Go `hex.EncodeToString`). -/
def hexChars : List Nat → List Char
  | [] => []
  | b :: bs => hexDigit (b / 16) :: hexDigit (b % 16) :: hexChars bs

/-- Go `hex.EncodeToString`: lowercase hex string of a byte slice. -/
def hexEncodeToString (bs : List Nat) : String :=
  String.mk (hexChars bs)

/-- Value of one hex digit character, `none` when the character is not a
decimal digit or a lowercase `a`-`f`. -/
def hexDigitVal (c : Char) : Option Nat :=
  if 48 ≤ c.toNat ∧ c.toNat ≤ 57 then some (c.toNat - 48)
  else if 97 ≤ c.toNat ∧ c.toNat ≤ 102 then some (c.toNat - 87)
  else none

/-- Decoder for lowercase hex character lists (two characters per byte). -/
def hexDecodeChars : List Char → Option (List Nat)
  | [] => some []
  | c1 :: c2 :: rest =>
    match hexDigitVal c1, hexDigitVal c2, hexDecodeChars rest with
    | some hi, some lo, some tl => some ((16 * hi + lo) :: tl)
    | _, _, _ => none
  | [_] => none

/-- Decoder for lowercase hex strings, inverse of `hexEncodeToString`. -/
def hexDecode (s : String) : Option (List Nat) :=
  hexDecodeChars s.data

/-- A character of the lowercase hex alphabet (`0`-`9`, `a`-`f`). -/
def isLowerHexDigit (c : Char) : Bool :=
  (hexDigitVal c).isSome

/-- `firehose.Hex` (`firehose/printer.go`): empty byte slice maps to the
sentinel `"."`, otherwise lowercase hex. -/
def Hex (bs : List Nat) : String :=
  if bs.length = 0 then "." else hexEncodeToString bs

/-- Minimal big-endian byte representation of a natural number, with
structural fuel so that it evaluates by kernel reduction; `bigIntBytes` below
instantiates the fuel. Models Go `big.Int.Bytes()` for non-negative values
(zero gives the empty slice). -/
def bigIntBytesAux : Nat → Nat → List Nat
  | 0, _ => []
  | fuel + 1, n => if n = 0 then [] else bigIntBytesAux fuel (n / 256) ++ [n % 256]

/-- Go `big.Int.Bytes()` for a non-negative value: minimal big-endian bytes,
empty for zero. -/
def bigIntBytes (n : Nat) : List Nat :=
  bigIntBytesAux n n

/-- `firehose.BigInt` (`firehose/printer.go`): a nil pointer maps to the
sentinel `"."` (same output as a zero value), otherwise `Hex` of the minimal
big-endian bytes. -/
def BigInt : Option Nat → String
  | none => "."
  | some n => Hex (bigIntBytes n)

/-! ### `ExtendedStack` (`firehose` shared state file): `MustPop`, `MustPeek` -/

/-- Result of an operation that either returns a value or aborts the process
(Go `panic`). -/
inductive MustRes (α : Type) where
  | panicked
  | ok (a : α)
deriving DecidableEq

/-- `stack.Stack.Pop` of the underlying golang-collections stack: `none` when
the stack is empty, otherwise the top element and the remaining stack. The
stack is modelled with its top at the head of the list. -/
def stackPop : List String → Option (String × List String)
  | [] => none
  | x :: xs => some (x, xs)

/-- `stack.Stack.Peek`: `none` when empty, otherwise the top element. -/
def stackPeek : List String → Option String
  | [] => none
  | x :: xs => some x

/-- `ExtendedStack.MustPop`: panics when `Pop` returned nil, otherwise the
popped element (together with the mutated stack, made explicit). -/
def MustPop (s : List String) : MustRes (String × List String) :=
  match stackPop s with
  | none => .panicked
  | some r => .ok r

/-- `ExtendedStack.MustPeek`: panics when `Peek` returned nil, otherwise the
top element. -/
def MustPeek (s : List String) : MustRes String :=
  match stackPeek s with
  | none => .panicked
  | some x => .ok x

/-! ### Helper lemmas for the formatter claims -/

lemma hexDigitVal_hexDigit : ∀ n, n < 16 → hexDigitVal (hexDigit n) = some n := by
  decide

lemma hexChars_length (bs : List Nat) : (hexChars bs).length = 2 * bs.length := by
  induction bs with
  | nil => rfl
  | cons b bs ih => simp [hexChars, ih]; ring

lemma hexDecodeChars_hexChars (bs : List Nat) (hb : ∀ b ∈ bs, b < 256) :
    hexDecodeChars (hexChars bs) = some bs := by
  induction bs with
  | nil => rfl
  | cons b bs ih =>
    have hblt : b < 256 := hb b (by simp)
    have h1 : b / 16 < 16 := by omega
    have h2 : b % 16 < 16 := by omega
    have htl : hexDecodeChars (hexChars bs) = some bs :=
      ih (fun x hx => hb x (by simp [hx]))
    simp [hexChars, hexDecodeChars, hexDigitVal_hexDigit _ h1,
      hexDigitVal_hexDigit _ h2, htl]
    omega

lemma hexChars_all_lower (bs : List Nat) (hb : ∀ b ∈ bs, b < 256) :
    (hexChars bs).all isLowerHexDigit = true := by
  induction bs with
  | nil => rfl
  | cons b bs ih =>
    have hblt : b < 256 := hb b (by simp)
    have h1 : b / 16 < 16 := by omega
    have h2 : b % 16 < 16 := by omega
    have e1 := hexDigitVal_hexDigit _ h1
    have e2 := hexDigitVal_hexDigit _ h2
    have htl := ih (fun x hx => hb x (by simp [hx]))
    simp only [hexChars, List.all_cons, isLowerHexDigit, e1, e2, htl,
      Option.isSome_some, Bool.and_self, Bool.true_and]

lemma bigIntBytesAux_bytes : ∀ fuel n, ∀ b ∈ bigIntBytesAux fuel n, b < 256 := by
  intro fuel
  induction fuel with
  | zero => intro n b hbmem; simp [bigIntBytesAux] at hbmem
  | succ f ih =>
    intro n b hbmem
    by_cases hn : n = 0
    · simp [bigIntBytesAux, hn] at hbmem
    · simp [bigIntBytesAux, hn] at hbmem
      rcases hbmem with hbmem | hbmem
      · exact ih _ _ hbmem
      · omega

lemma bigIntBytes_bytes (n : Nat) : ∀ b ∈ bigIntBytes n, b < 256 :=
  bigIntBytesAux_bytes n n

lemma bigIntBytesAux_ne_nil (fuel n : Nat) (hf : 1 ≤ fuel) (hn : n ≠ 0) :
    bigIntBytesAux fuel n ≠ [] := by
  rcases fuel with _ | f
  · omega
  · intro hcontra
    rw [bigIntBytesAux, if_neg hn] at hcontra
    exact absurd hcontra (by simp)

lemma Hex_ne_dot (bs : List Nat) (h : bs ≠ []) : Hex bs ≠ "." := by
  have hlen : bs.length ≠ 0 := by simpa using h
  intro hcontra
  have hdata : (Hex bs).data = ['.'] := by rw [hcontra]
  rw [Hex, if_neg hlen] at hdata
  have : (hexChars bs).length = 1 := by
    simpa [hexEncodeToString] using congrArg List.length hdata
  rw [hexChars_length] at this
  omega

/-- Claim C6: `Hex` maps the empty byte string to the sentinel `"."` and every
non-empty byte string to its lowercase hex encoding, which decodes back to the
original bytes; `BigInt` maps a nil big integer to the same sentinel and any
non-nil value to the lowercase hex of its minimal big-endian bytes (which
likewise decodes back when the value is non-zero); the sentinel never collides
with the hex output produced for a non-empty input. -/
theorem hex_bigint_formatters :
    Hex [] = "." ∧ BigInt none = "." ∧
    (∀ n : Nat, BigInt (some n) = Hex (bigIntBytes n)) ∧
    (∀ bs : List Nat, bs ≠ [] → (∀ b ∈ bs, b < 256) →
      hexDecode (Hex bs) = some bs ∧
      (Hex bs).data.all isLowerHexDigit = true ∧
      Hex bs ≠ ".") ∧
    (∀ n : Nat, n ≠ 0 → hexDecode (BigInt (some n)) = some (bigIntBytes n)) := by
  refine ⟨rfl, rfl, fun n => rfl, ?_, ?_⟩
  · intro bs hne hb
    have hlen : bs.length ≠ 0 := by simpa using hne
    refine ⟨?_, ?_, Hex_ne_dot bs hne⟩
    · rw [Hex, if_neg hlen]
      simpa [hexDecode, hexEncodeToString] using hexDecodeChars_hexChars bs hb
    · rw [Hex, if_neg hlen]
      simpa [hexEncodeToString] using hexChars_all_lower bs hb
  · intro n hn
    have hne : bigIntBytes n ≠ [] := bigIntBytesAux_ne_nil n n (by omega) hn
    have hlen : (bigIntBytes n).length ≠ 0 := by simpa using hne
    rw [BigInt, Hex, if_neg hlen]
    simpa [hexDecode, hexEncodeToString] using
      hexDecodeChars_hexChars (bigIntBytes n) (bigIntBytes_bytes n)

/-- Witness for C6 at a concrete non-empty byte string and non-zero value. -/
theorem hex_bigint_formatters_witness :
    hexDecode (Hex [0, 255]) = some [0, 255] ∧ Hex [0, 255] ≠ "." ∧
    hexDecode (BigInt (some 256)) = some (bigIntBytes 256) := by
  have h := hex_bigint_formatters
  have h4 := h.2.2.2.1 [0, 255] (by decide) (by decide)
  exact ⟨h4.1, h4.2.2, h.2.2.2.2 256 (by decide)⟩

/-- Claim C10: the `BigInt` formatter maps the zero big integer to the
sentinel `"."`, the same output it produces for a nil big integer, so a zero
value and an absent value are indistinguishable in the emitted wire text. -/
theorem bigint_zero_and_nil_same_sentinel :
    BigInt (some 0) = "." ∧ BigInt none = "." ∧ BigInt (some 0) = BigInt none := by
  refine ⟨rfl, rfl, rfl⟩

/-- Claim C9: `MustPop` and `MustPeek` panic exactly when the stack is empty
(never a silently defaulted value); on a non-empty stack they return the top
element without panicking, `MustPop` also removing it. -/
theorem must_pop_must_peek_spec :
    ∀ s : List String,
      (MustPop s = .panicked ↔ s = []) ∧
      (MustPeek s = .panicked ↔ s = []) ∧
      (∀ x xs, MustPop (x :: xs) = .ok (x, xs)) ∧
      (∀ x xs, MustPeek (x :: xs) = .ok x) := by
  intro s
  refine ⟨?_, ?_, fun x xs => rfl, fun x xs => rfl⟩
  · cases s <;> simp [MustPop, stackPop]
  · cases s <;> simp [MustPeek, stackPeek]

/-- Witness for C9 at concrete stacks. -/
theorem must_pop_must_peek_spec_witness :
    MustPop [] = .panicked ∧ MustPop ["a", "b"] = .ok ("a", ["b"]) ∧
    MustPeek ["a", "b"] = .ok "a" := by
  refine ⟨(must_pop_must_peek_spec []).1.mpr rfl,
    (must_pop_must_peek_spec ["a", "b"]).2.2.1 "a" ["b"],
    (must_pop_must_peek_spec ["a", "b"]).2.2.2 "a" ["b"]⟩

/-! ### Printer retry logic (`flushToFirehose` / `DelegateToWriterPrinter.Print`) -/

/-- Result of one delivery attempt sequence of `flushToFirehose`: the bytes
the sink accepted, the writes made to the fallback file
`/tmp/firehose_writer_failed_print.log`, and the best-effort final notice
written to the original sink after the retry bound is exhausted. -/
structure FlushResult where
  delivered : List Char
  fallbackWrites : List String
  sinkNotice : Option String
deriving DecidableEq

/-- The diagnostic message `"\nFIREHOSE FAILED WRITING %dx: %s\n"` embedding
the attempt count and the last write error (Go renders a nil error as
`%!s(<nil>)`). -/
def failMessage (loops : Nat) (err : Option String) : String :=
  "\nFIREHOSE FAILED WRITING " ++ toString loops ++ "x: " ++
    (match err with
     | none => "%!s(<nil>)"
     | some m => m) ++ "\n"

/-- The retry loop of `flushToFirehose` (and, identically, of the older
`DelegateToWriterPrinter.Print`): a sink is a function from the attempt index
and the bytes passed to `Write` to the count of bytes it accepted and an
error.  On a short write the unwritten remainder is retried; after the last
of the 10 attempts the diagnostic message is written once to the fallback
file and once to the sink.  `fuel` counts the remaining attempts (the Go loop
runs `i` from 0 to 9, so `i + fuel = 10` at every call). -/
def flushGo (sink : Nat → List Char → Nat × Option String) :
    Nat → Nat → List Char → List Char → FlushResult
  | 0, _, _, acc => { delivered := acc, fallbackWrites := [], sinkNotice := none }
  | fuel + 1, i, inp, acc =>
    let w := sink i inp
    let acc2 := acc ++ inp.take w.1
    if inp.length = w.1 then
      { delivered := acc2, fallbackWrites := [], sinkNotice := none }
    else if fuel = 0 then
      let m := failMessage 10 w.2
      { delivered := acc2, fallbackWrites := [m], sinkNotice := some m }
    else
      flushGo sink fuel (i + 1) (inp.drop w.1) acc2

/-- `flushToFirehose(in, writer)`: 10 attempts starting at index 0. -/
def flushToFirehose (sink : Nat → List Char → Nat × Option String)
    (inp : List Char) : FlushResult :=
  flushGo sink 10 0 inp []

/-- The formatted trace line `"FIRE " + strings.Join(input, " ") + "\n"`. -/
def fireLine (input : List String) : String :=
  "FIRE " ++ String.intercalate " " input ++ "\n"

/-- `DelegateToWriterPrinter.Print`: formats the line and delivers it through
the retry loop. -/
def DelegateToWriterPrinter.Print (sink : Nat → List Char → Nat × Option String)
    (input : List String) : FlushResult :=
  flushToFirehose sink (fireLine input).data

lemma fireLine_ne_nil (input : List String) : (fireLine input).data ≠ [] := by
  rw [fireLine, String.data_append, String.data_append]
  intro hcontra
  rcases List.append_eq_nil.mp hcontra with ⟨h1, h2⟩
  rcases List.append_eq_nil.mp h1 with ⟨h3, h4⟩
  exact absurd h3 (by decide)

lemma flushGo_zero_writes (sink : Nat → List Char → Nat × Option String)
    (hz : ∀ j rem, j ≤ 8 → (sink j rem).1 = 0) :
    ∀ fuel i inp acc, 2 ≤ fuel → i + fuel = 10 → inp ≠ [] →
      flushGo sink fuel i inp acc = flushGo sink 1 9 inp acc := by
  intro fuel
  induction fuel with
  | zero => intro i inp acc hf; omega
  | succ f ih =>
    intro i inp acc hf hi hne
    have hiz : i ≤ 8 := by omega
    have hw := hz i inp hiz
    have hlen : inp.length ≠ 0 := by simpa using hne
    rw [flushGo]
    simp only [hw, List.take_zero, List.append_nil, List.drop_zero]
    rw [if_neg (by omega)]
    have hf0 : f ≠ 0 := by omega
    rw [if_neg hf0]
    rcases Nat.lt_or_ge f 2 with hflt | hfge
    · have : f = 1 := by omega
      subst this
      have : i + 1 = 9 := by omega
      rw [this]
    · exact ih (i + 1) inp acc hfge (by omega) hne

lemma flushGo_never_complete (sink : Nat → List Char → Nat × Option String)
    (hs : ∀ j rem, rem ≠ [] → (sink j rem).1 < rem.length) :
    ∀ fuel i inp acc, 1 ≤ fuel → inp ≠ [] →
      ∃ e, (flushGo sink fuel i inp acc).fallbackWrites = [failMessage 10 e] ∧
        (flushGo sink fuel i inp acc).sinkNotice = some (failMessage 10 e) := by
  intro fuel
  induction fuel with
  | zero => intro i inp acc hf; omega
  | succ f ih =>
    intro i inp acc hf hne
    have hw := hs i inp hne
    have hlen : inp.length ≠ (sink i inp).1 := by omega
    rw [flushGo]
    simp only []
    rw [if_neg hlen]
    rcases Nat.eq_zero_or_pos f with hf0 | hfpos
    · subst hf0
      exact ⟨(sink i inp).2, rfl, rfl⟩
    · rw [if_neg (by omega)]
      have hdropne : inp.drop (sink i inp).1 ≠ [] := by
        intro hcontra
        have := congrArg List.length hcontra
        simp [List.length_drop] at this
        omega
      exact ih (i + 1) (inp.drop (sink i inp).1) (acc ++ inp.take (sink i inp).1)
        (by omega) hdropne

/-- Claim C4: for every line printed through `DelegateToWriterPrinter`, a
short write is retried with the unwritten remainder for up to 10 total
attempts; a sink that writes nothing on the first 9 attempts and everything
on the 10th still delivers the entire line with no fallback-file write; a
sink that never completes the remainder within the 10 attempts causes exactly
one write of the diagnostic message (embedding the attempt count and last
error) to the fallback file, and the same message once to the original sink. -/
theorem printer_retry_and_fallback
    (sink : Nat → List Char → Nat × Option String) (input : List String) :
    ((∀ j rem, j ≤ 8 → (sink j rem).1 = 0) →
      (∀ rem, sink 9 rem = (rem.length, none)) →
      DelegateToWriterPrinter.Print sink input =
        { delivered := (fireLine input).data, fallbackWrites := [], sinkNotice := none }) ∧
    ((∀ j rem, rem ≠ [] → (sink j rem).1 < rem.length) →
      ∃ e, (DelegateToWriterPrinter.Print sink input).fallbackWrites = [failMessage 10 e] ∧
        (DelegateToWriterPrinter.Print sink input).sinkNotice = some (failMessage 10 e)) := by
  constructor
  · intro hz h10
    have hne := fireLine_ne_nil input
    rw [DelegateToWriterPrinter.Print, flushToFirehose,
      flushGo_zero_writes sink hz 10 0 _ [] (by omega) (by omega) hne]
    rw [flushGo]
    simp [h10 (fireLine input).data]
  · intro hs
    exact flushGo_never_complete sink hs 10 0 _ [] (by omega) (fireLine_ne_nil input)

/-- A sink that accepts nothing on attempts 0..8 and everything on attempt 9. -/
def lateSink : Nat → List Char → Nat × Option String :=
  fun i rem => if i ≤ 8 then (0, some "resource temporarily unavailable") else (rem.length, none)

/-- A sink that always fails, accepting nothing. -/
def brokenSink : Nat → List Char → Nat × Option String :=
  fun _ _ => (0, some "broken pipe")

/-- Witness for C4 at concrete sinks and a concrete line. -/
theorem printer_retry_and_fallback_witness :
    DelegateToWriterPrinter.Print lateSink ["BLOCK", "12"] =
      { delivered := (fireLine ["BLOCK", "12"]).data, fallbackWrites := [], sinkNotice := none } ∧
    ∃ e, (DelegateToWriterPrinter.Print brokenSink ["BLOCK", "12"]).fallbackWrites =
        [failMessage 10 e] ∧
      (DelegateToWriterPrinter.Print brokenSink ["BLOCK", "12"]).sinkNotice =
        some (failMessage 10 e) := by
  constructor
  · exact (printer_retry_and_fallback lateSink ["BLOCK", "12"]).1
      (fun j rem hj => by simp [lateSink, hj])
      (fun rem => by simp [lateSink])
  · exact (printer_retry_and_fallback brokenSink ["BLOCK", "12"]).2
      (fun j rem hrem => by
        simp [brokenSink]
        exact List.length_pos.mpr hrem)

/-! ### `StateProcessor.Process` (`core/state_processor.go`)

The firehose side effects of `Process` are embedded as an explicit event
list.  A transaction is represented by the error result of its
`ApplyTransaction` call (`none` = applied successfully).  The speculative
per-transaction events (`StartTransaction`, `EndTransaction`) are written to
the private transaction buffer and reach the canonical sink only through a
`FlushTransaction` call on the canonical context, which is the property the
claims are about; the DAO hard-fork balance moves and the consensus-engine
finalize call carry no firehose lifecycle events of their own and are not
modelled. -/

/-- One firehose-relevant step taken by `StateProcessor.Process`. -/
inductive ProcessEvent where
  | startBlock
  | createSpeculativeCtx
  | startTransaction (i : Nat)
  | endTransaction (i : Nat)
  | flushTransaction (i : Nat)
  | finalizeBlockFirehose
  | finalizeBlockSync
deriving DecidableEq

/-- The transaction loop of `Process`: `i` is the index of the first
remaining transaction, each list entry is the error returned by
`ApplyTransaction` for that transaction.  On an error the loop is exited by
an immediate `return` (no `EndTransaction`, no `FlushTransaction`). -/
def processTxs (enabled : Bool) : Nat → List (Option String) →
    List ProcessEvent × Option String
  | _, [] => ([], none)
  | i, r :: rest =>
    let pre := if enabled then [ProcessEvent.startTransaction i] else []
    match r with
    | some e => (pre, some e)
    | none =>
      let post := if enabled then
        [ProcessEvent.endTransaction i, ProcessEvent.flushTransaction i] else []
      let next := processTxs enabled (i + 1) rest
      (pre ++ post ++ next.1, next.2)

/-- The events emitted by `Process` before the transaction loop: `StartBlock`
and the creation of one speculative execution context wrapping the reused
`TxSyncBuffer` (both only when firehose is enabled). -/
def processHead (enabled : Bool) : List ProcessEvent :=
  if enabled then [ProcessEvent.startBlock, ProcessEvent.createSpeculativeCtx] else []

/-- The finalize-block tail of `Process`: with firehose enabled,
`FinalizeBlock` on the firehose context; otherwise, when block progress is
enabled, `FinalizeBlock` on the sync context. -/
def processFin (enabled blockProgress : Bool) : List ProcessEvent :=
  if enabled then [ProcessEvent.finalizeBlockFirehose]
  else if blockProgress then [ProcessEvent.finalizeBlockSync] else []

/-- `StateProcessor.Process`: head, transaction loop, then — only when no
transaction aborted (the Go code returns early on an `ApplyTransaction`
error, skipping the finalize section) — the finalize-block tail.  The second
component is the error result of `Process`. -/
def Process (enabled blockProgress : Bool) (txs : List (Option String)) :
    List ProcessEvent × Option String :=
  (processHead enabled ++ (processTxs enabled 0 txs).1 ++
     (match (processTxs enabled 0 txs).2 with
      | some _ => []
      | none => processFin enabled blockProgress),
   (processTxs enabled 0 txs).2)

/-- `ToBufferPrinter` (`firehose/printer.go`): an in-memory accumulating sink. -/
structure ToBufferPrinter where
  buffer : List Char
deriving DecidableEq

/-- `NewToBufferPrinterWithBuffer`: wraps a reused buffer, forcing a reset so
the printer starts with a clean (empty) buffer. -/
def NewToBufferPrinterWithBuffer (buf : List Char) : ToBufferPrinter :=
  { buffer := [] }

lemma processTxs_event_shape (enabled : Bool) :
    ∀ (txs : List (Option String)) (i : Nat) (e : ProcessEvent),
      e ∈ (processTxs enabled i txs).1 →
      ∃ j, e = .startTransaction j ∨ e = .endTransaction j ∨ e = .flushTransaction j := by
  intro txs
  induction txs with
  | nil => intro i e hmem; simp [processTxs] at hmem
  | cons x rest ih =>
    intro i e hmem
    cases x with
    | some err =>
      cases enabled <;> simp [processTxs] at hmem
      exact ⟨i, Or.inl hmem⟩
    | none =>
      cases enabled with
      | false =>
        simp [processTxs] at hmem
        exact ih (i + 1) e hmem
      | true =>
        simp [processTxs] at hmem
        rcases hmem with h | h | h | h
        · exact ⟨i, Or.inl h⟩
        · exact ⟨i, Or.inr (Or.inl h)⟩
        · exact ⟨i, Or.inr (Or.inr h)⟩
        · exact ih (i + 1) e h

lemma processTxs_flush_iff :
    ∀ (pref : List (Option String)) (i : Nat) (r : Option String)
      (suff : List (Option String)), (∀ x ∈ pref, x = none) →
      ((ProcessEvent.flushTransaction (i + pref.length) ∈
          (processTxs true i (pref ++ r :: suff)).1) ↔ r = none) ∧
      (∀ e, r = some e → (processTxs true i (pref ++ r :: suff)).2 = some e) := by
  intro pref
  induction pref with
  | nil =>
    intro i r suff hp
    constructor
    · cases r with
      | none => simp [processTxs]
      | some e => simp [processTxs]
    · intro e hr
      subst hr
      simp [processTxs]
  | cons x pref ih =>
    intro i r suff hp
    have hx : x = none := hp x (by simp)
    subst hx
    have hK : i + (none :: pref).length = (i + 1) + pref.length := by
      simp [List.length_cons]
      omega
    have hrec := ih (i + 1) r suff (fun y hy => hp y (by simp [hy]))
    rw [hK]
    constructor
    · have hKi : (i + 1) + pref.length ≠ i := by omega
      simp only [List.cons_append, processTxs, if_true]
      constructor
      · intro hmem
        simp only [List.append_assoc, List.mem_append, List.mem_singleton,
          List.mem_cons, List.not_mem_nil, or_false] at hmem
        rcases hmem with h | h | h | h
        · exact absurd h (by simp)
        · exact absurd h (by simp)
        · exact absurd h (by simp [hKi])
        · exact hrec.1.mp h
      · intro hr
        have := hrec.1.mpr hr
        simp only [List.append_assoc, List.mem_append]
        right; right; right
        exact this
    · intro e hr
      simp only [List.cons_append, processTxs, if_true]
      exact hrec.2 e hr

lemma processTxs_all_ok (enabled : Bool) :
    ∀ (txs : List (Option String)) (i : Nat), (∀ x ∈ txs, x = none) →
      (processTxs enabled i txs).2 = none := by
  intro txs
  induction txs with
  | nil => intro i hall; simp [processTxs]
  | cons x rest ih =>
    intro i hall
    have hx : x = none := hall x (by simp)
    subst hx
    simp only [processTxs]
    exact ih (i + 1) (fun y hy => hall y (by simp [hy]))

/-- Claim C1: with the firehose context enabled, the speculative transaction
buffer's content is flushed into the canonical context's sink
(`FlushTransaction`) if and only if `ApplyTransaction` returned a nil error
for that transaction; when `ApplyTransaction` errors, `Process` returns that
error immediately without flushing, so the aborted transaction contributes
zero bytes (no `FlushTransaction` event) to the canonical trace stream. -/
theorem process_flushes_iff_apply_ok (blockProgress : Bool)
    (pref suff : List (Option String)) (r : Option String)
    (hpref : ∀ x ∈ pref, x = none) :
    ((ProcessEvent.flushTransaction pref.length ∈
        (Process true blockProgress (pref ++ r :: suff)).1) ↔ r = none) ∧
    (∀ e, r = some e →
      (Process true blockProgress (pref ++ r :: suff)).2 = some e ∧
      ProcessEvent.flushTransaction pref.length ∉
        (Process true blockProgress (pref ++ r :: suff)).1) := by
  have hloop := processTxs_flush_iff pref 0 r suff hpref
  simp only [Nat.zero_add] at hloop
  have hheadmem : ProcessEvent.flushTransaction pref.length ∉ processHead true := by
    simp [processHead]
  have hfinmem : ∀ bp, ProcessEvent.flushTransaction pref.length ∉ processFin true bp := by
    intro bp
    simp [processFin]
  constructor
  · simp only [Process, List.mem_append]
    constructor
    · intro hmem
      rcases hmem with (h | h) | h
      · exact absurd h hheadmem
      · exact hloop.1.mp h
      · cases hres : (processTxs true 0 (pref ++ r :: suff)).2 with
        | none => rw [hres] at h; exact absurd h (hfinmem blockProgress)
        | some e => rw [hres] at h; simp at h
    · intro hr
      left; right
      exact hloop.1.mpr hr
  · intro e hr
    have hres := hloop.2 e hr
    constructor
    · simp only [Process]
      exact hres
    · simp only [Process, List.mem_append]
      rintro ((h | h) | h)
      · exact absurd h hheadmem
      · exact absurd (hloop.1.mp h) (by simp [hr])
      · rw [hres] at h; simp at h

/-- Witness for C1: a two-transaction block whose second transaction fails,
and a one-transaction block that succeeds. -/
theorem process_flushes_iff_apply_ok_witness :
    (ProcessEvent.flushTransaction 1 ∉ (Process true false [none, some "gas"]).1) ∧
    (Process true false [none, some "gas"]).2 = some "gas" ∧
    (ProcessEvent.flushTransaction 0 ∈ (Process true false [none]).1) := by
  refine ⟨?_, ?_, ?_⟩
  · exact ((process_flushes_iff_apply_ok false [none] [] (some "gas")
      (by intro x hx; simpa using hx)).2 "gas" rfl).2
  · exact ((process_flushes_iff_apply_ok false [none] [] (some "gas")
      (by intro x hx; simpa using hx)).2 "gas" rfl).1
  · exact (process_flushes_iff_apply_ok false [] [] none (by simp)).1.mpr rfl

/-- Claim C7: for a block whose transactions all apply without error, the
finalize-block line is emitted even when full tracing is disabled as long as
block-progress mode is active: with firehose enabled `FinalizeBlock` runs on
the firehose context; otherwise, when `BlockProgressEnabled` is set, it runs
on the sync context. -/
theorem process_finalize_block_modes (enabled blockProgress : Bool)
    (txs : List (Option String)) (hok : ∀ x ∈ txs, x = none) :
    (enabled = true →
      ProcessEvent.finalizeBlockFirehose ∈ (Process enabled blockProgress txs).1) ∧
    (enabled = false → blockProgress = true →
      ProcessEvent.finalizeBlockSync ∈ (Process enabled blockProgress txs).1 ∧
      ProcessEvent.finalizeBlockFirehose ∉ (Process enabled blockProgress txs).1) := by
  have hres := processTxs_all_ok enabled txs 0 hok
  constructor
  · intro he
    subst he
    simp only [Process, hres, List.mem_append]
    right
    simp [processFin]
  · intro he hb
    subst he
    subst hb
    simp only [Process, hres, List.mem_append]
    constructor
    · right
      simp [processFin]
    · rintro ((h | h) | h)
      · simp [processHead] at h
      · rcases processTxs_event_shape false txs 0 _ h with ⟨j, hj | hj | hj⟩ <;> simp at hj
      · simp [processFin] at h

/-- Witness for C7 at concrete blocks. -/
theorem process_finalize_block_modes_witness :
    ProcessEvent.finalizeBlockFirehose ∈ (Process true false [none]).1 ∧
    ProcessEvent.finalizeBlockSync ∈ (Process false true [none]).1 := by
  constructor
  · exact (process_finalize_block_modes true false [none]
      (by intro x hx; simpa using hx)).1 rfl
  · exact ((process_finalize_block_modes false true [none]
      (by intro x hx; simpa using hx)).2 rfl rfl).1

/-! ### EVM call variants (`core/vm/evm.go`)

Each variant is embedded as a function from the booleans deciding its
branches (and the abstracted outcome of `RunPrecompiledContract` /
`interpreter.Run`) to the list of firehose events the variant emits for its
own frame, the leftover gas it returns to the caller, and its error result.
Nested frames emit their own events through their own invocations and are
not part of a frame's event list. -/

/-- Errors distinguished by the EVM call/create epilogues. -/
inductive VMErr where
  | executionReverted
  | codeStoreOutOfGas
  | other (msg : String)
deriving DecidableEq

/-- `err.Error()` texts used in the emitted events. -/
def errText : VMErr → String
  | .executionReverted => "execution reverted"
  | .codeStoreOutOfGas => "contract creation code storage out of gas"
  | .other m => m

/-- `ErrDepth.Error()`. -/
def errDepthText : String := "max call depth exceeded"

/-- `ErrInsufficientBalance.Error()`. -/
def errInsufficientBalanceText : String := "insufficient balance for transfer"

/-- `ErrNonceUintOverflow.Error()`. -/
def errNonceOverflowText : String := "nonce uint64 overflow"

/-- `ErrContractAddressCollision.Error()`. -/
def errCollisionText : String := "contract address collision"

/-- `firehose.FailedExecutionGasChangeReason`: the reason string
`"failed_execution"` used for all call-failure remaining-gas burning. -/
def FailedExecutionGasChangeReason : String := "failed_execution"

/-- `firehose.RefundAfterExecutionGasChangeReason`. -/
def RefundAfterExecutionGasChangeReason : String := "refund_after_execution"

/-- One firehose emission made by an EVM call/create frame. -/
inductive FireEvent where
  | startCall (kind : String)
  | recordCallParams (kind : String)
  | endCall (gasLeft : Nat)
  | endFailedCall (gasLeft : Nat) (isRevert : Bool) (reason : String)
  | recordCallFailed (gasLeft : Nat) (reason : String)
  | recordGasConsume (oldGas newGas : Nat) (reason : String)
  | recordCallReverted
  | recordCallWithoutCode
deriving DecidableEq

/-- The two terminal emissions closing a call frame. -/
def isTerminalEvent : FireEvent → Bool
  | .endCall _ => true
  | .endFailedCall _ _ _ => true
  | _ => false

/-- Outcome of running the callee (precompiled contract or interpreter):
remaining gas afterwards and the error, `none` meaning success. -/
structure RunOutcome where
  gasAfter : Nat
  err : Option VMErr
deriving DecidableEq

/-- The error-handling block that `Call`, `CallCode`, `DelegateCall` and
`StaticCall` repeat verbatim after running the callee: on a non-nil error the
failure is recorded; unless the error is exactly `ErrExecutionReverted`, the
full remaining gas is consumed under `FailedExecutionGasChangeReason` and the
gas becomes 0 (burn-all); for `ErrExecutionReverted` the revert is recorded
and the gas is preserved (refund-remaining).  Returns the events emitted and
the adjusted gas; the unconditional `EndCall(gas, ret)` follows at each call
site. -/
def callErrEpilogue (enabled : Bool) (gas : Nat) (err : Option VMErr) :
    List FireEvent × Nat :=
  match err with
  | none => ([], gas)
  | some e =>
    let evs0 := if enabled then [FireEvent.recordCallFailed gas (errText e)] else []
    match e with
    | .executionReverted =>
      (evs0 ++ (if enabled then [FireEvent.recordCallReverted] else []), gas)
    | _ =>
      (evs0 ++ (if enabled then
        [FireEvent.recordGasConsume gas gas FailedExecutionGasChangeReason] else []), 0)

/-- `EVM.Call`: branch determinants are booleans mirroring the Go conditions
(`depthExceeded` for `evm.depth > CallCreateDepth`, `valueZero` for
`value.Sign() == 0`, `canTransfer` for `CanTransfer`, `accountExists` for
`StateDB.Exist(addr)`, `codeEmpty` for `len(code) == 0`). -/
def EVM.Call (enabled depthExceeded valueZero canTransfer accountExists
    isPrecompile isEIP158 codeEmpty : Bool) (gas : Nat) (run : RunOutcome) :
    List FireEvent × Nat × Option VMErr :=
  let head := if enabled then
    [FireEvent.startCall "CALL", FireEvent.recordCallParams "CALL"] else []
  if depthExceeded then
    (head ++ (if enabled then [FireEvent.endFailedCall gas true errDepthText] else []),
     gas, some (.other errDepthText))
  else if !valueZero && !canTransfer then
    (head ++ (if enabled then
      [FireEvent.endFailedCall gas true errInsufficientBalanceText] else []),
     gas, some (.other errInsufficientBalanceText))
  else if !accountExists && !isPrecompile && isEIP158 && valueZero then
    (head ++ (if enabled then [FireEvent.endCall gas] else []), gas, none)
  else
    let body : List FireEvent × Nat × Option VMErr :=
      if isPrecompile then ([], run.gasAfter, run.err)
      else if codeEmpty then
        ((if enabled then [FireEvent.recordCallWithoutCode] else []), gas, none)
      else ([], run.gasAfter, run.err)
    let ep := callErrEpilogue enabled body.2.1 body.2.2
    (head ++ body.1 ++ ep.1 ++ (if enabled then [FireEvent.endCall ep.2] else []),
     ep.2, body.2.2)

/-- `EVM.CallCode`: the balance check runs unconditionally; precompile and
interpreter outcomes are both abstracted by `run`. -/
def EVM.CallCode (enabled depthExceeded canTransfer : Bool) (gas : Nat)
    (run : RunOutcome) : List FireEvent × Nat × Option VMErr :=
  let head := if enabled then
    [FireEvent.startCall "CALLCODE", FireEvent.recordCallParams "CALLCODE"] else []
  if depthExceeded then
    (head ++ (if enabled then [FireEvent.endFailedCall gas true errDepthText] else []),
     gas, some (.other errDepthText))
  else if !canTransfer then
    (head ++ (if enabled then
      [FireEvent.endFailedCall gas true errInsufficientBalanceText] else []),
     gas, some (.other errInsufficientBalanceText))
  else
    let ep := callErrEpilogue enabled run.gasAfter run.err
    (head ++ ep.1 ++ (if enabled then [FireEvent.endCall ep.2] else []), ep.2, run.err)

/-- `EVM.DelegateCall`: only the depth check precedes the run. -/
def EVM.DelegateCall (enabled depthExceeded : Bool) (gas : Nat)
    (run : RunOutcome) : List FireEvent × Nat × Option VMErr :=
  let head := if enabled then
    [FireEvent.startCall "DELEGATE", FireEvent.recordCallParams "DELEGATE"] else []
  if depthExceeded then
    (head ++ (if enabled then [FireEvent.endFailedCall gas true errDepthText] else []),
     gas, some (.other errDepthText))
  else
    let ep := callErrEpilogue enabled run.gasAfter run.err
    (head ++ ep.1 ++ (if enabled then [FireEvent.endCall ep.2] else []), ep.2, run.err)

/-- `EVM.StaticCall`: only the depth check precedes the run (the zero-value
touch `AddBalance` uses `IgnoredBalanceChangeReason` and emits no call
lifecycle event). -/
def EVM.StaticCall (enabled depthExceeded : Bool) (gas : Nat)
    (run : RunOutcome) : List FireEvent × Nat × Option VMErr :=
  let head := if enabled then
    [FireEvent.startCall "STATIC", FireEvent.recordCallParams "STATIC"] else []
  if depthExceeded then
    (head ++ (if enabled then [FireEvent.endFailedCall gas true errDepthText] else []),
     gas, some (.other errDepthText))
  else
    let ep := callErrEpilogue enabled run.gasAfter run.err
    (head ++ ep.1 ++ (if enabled then [FireEvent.endCall ep.2] else []), ep.2, run.err)

/-- `EVM.create`: early exits for depth, balance, nonce overflow and contract
address collision (the collision terminal uses `isRevert = false` and returns
gas 0); `run.err` is the error after the max-code-size, EIP-3541 and
code-storage-gas adjustments, `run.gasAfter` is `contract.Gas` at that point.
In the non-revert failure branch `contract.UseGas(contract.Gas,
FailedExecutionGasChangeReason)` burns the remaining gas, so the final
`EndCall(contract.Gas, nil)` sees gas 0 (`Contract.UseGas` lives outside the
extracted sources). -/
def EVM.create (enabled depthExceeded canTransfer nonceOverflow collision
    isHomestead : Bool) (gas : Nat) (run : RunOutcome) :
    List FireEvent × Nat × Option VMErr :=
  let head := if enabled then
    [FireEvent.startCall "CREATE", FireEvent.recordCallParams "CREATE"] else []
  if depthExceeded then
    (head ++ (if enabled then [FireEvent.endFailedCall gas true errDepthText] else []),
     gas, some (.other errDepthText))
  else if !canTransfer then
    (head ++ (if enabled then
      [FireEvent.endFailedCall gas true errInsufficientBalanceText] else []),
     gas, some (.other errInsufficientBalanceText))
  else if nonceOverflow then
    (head ++ (if enabled then [FireEvent.endFailedCall gas true errNonceOverflowText] else []),
     gas, some (.other errNonceOverflowText))
  else if collision then
    (head ++ (if enabled then [FireEvent.endFailedCall gas false errCollisionText] else []),
     0, some (.other errCollisionText))
  else
    match run.err with
    | some e =>
      if isHomestead = true ∨ e ≠ VMErr.codeStoreOutOfGas then
        let evs0 := if enabled then
          [FireEvent.recordCallFailed run.gasAfter (errText e)] else []
        match e with
        | .executionReverted =>
          (head ++ evs0 ++ (if enabled then [FireEvent.recordCallReverted] else []) ++
            (if enabled then [FireEvent.endCall run.gasAfter] else []),
           run.gasAfter, some e)
        | _ =>
          (head ++ evs0 ++ (if enabled then [FireEvent.endCall 0] else []), 0, some e)
      else
        (head ++ (if enabled then [FireEvent.endCall run.gasAfter] else []),
         run.gasAfter, some e)
    | none =>
      (head ++ (if enabled then [FireEvent.endCall run.gasAfter] else []),
       run.gasAfter, none)

/-- Last element of a frame's event list (structural, so it reduces on the
concrete lists produced by the branch analysis). -/
def lastEvent : List FireEvent → Option FireEvent
  | [] => none
  | [e] => some e
  | _ :: e :: rest => lastEvent (e :: rest)

/-- A frame event list that opens with `StartCall(kind)` and contains exactly
one terminal emission, which closes the list. -/
def oneTerminal (evs : List FireEvent) (kind : String) : Prop :=
  evs.head? = some (.startCall kind) ∧
  (evs.filter isTerminalEvent).length = 1 ∧
  (∃ t, lastEvent evs = some t ∧ isTerminalEvent t = true)

set_option maxHeartbeats 3000000 in
lemma EVMCall_oneTerminal (d vz ct ae ip e158 ce : Bool) (gas : Nat)
    (run : RunOutcome) :
    oneTerminal (EVM.Call true d vz ct ae ip e158 ce gas run).1 "CALL" := by
  obtain ⟨g, err⟩ := run
  cases d <;> cases vz <;> cases ct <;> cases ae <;> cases ip <;> cases e158 <;>
    cases ce <;> rcases err with _ | (_ | _ | m) <;>
    simp [EVM.Call, callErrEpilogue, oneTerminal, isTerminalEvent, lastEvent, errText]

lemma EVMCallCode_oneTerminal (d ct : Bool) (gas : Nat) (run : RunOutcome) :
    oneTerminal (EVM.CallCode true d ct gas run).1 "CALLCODE" := by
  obtain ⟨g, err⟩ := run
  cases d <;> cases ct <;> rcases err with _ | (_ | _ | m) <;>
    simp [EVM.CallCode, callErrEpilogue, oneTerminal, isTerminalEvent, lastEvent, errText]

lemma EVMDelegateCall_oneTerminal (d : Bool) (gas : Nat) (run : RunOutcome) :
    oneTerminal (EVM.DelegateCall true d gas run).1 "DELEGATE" := by
  obtain ⟨g, err⟩ := run
  cases d <;> rcases err with _ | (_ | _ | m) <;>
    simp [EVM.DelegateCall, callErrEpilogue, oneTerminal, isTerminalEvent, lastEvent, errText]

lemma EVMStaticCall_oneTerminal (d : Bool) (gas : Nat) (run : RunOutcome) :
    oneTerminal (EVM.StaticCall true d gas run).1 "STATIC" := by
  obtain ⟨g, err⟩ := run
  cases d <;> rcases err with _ | (_ | _ | m) <;>
    simp [EVM.StaticCall, callErrEpilogue, oneTerminal, isTerminalEvent, lastEvent, errText]

lemma EVMcreate_oneTerminal (d ct no col hom : Bool) (gas : Nat) (run : RunOutcome) :
    oneTerminal (EVM.create true d ct no col hom gas run).1 "CREATE" := by
  obtain ⟨g, err⟩ := run
  cases d <;> cases ct <;> cases no <;> cases col <;> cases hom <;>
    rcases err with _ | (_ | _ | m) <;>
    simp [EVM.create, oneTerminal, isTerminalEvent, lastEvent, errText]

/-- Claim C2: in every EVM call variant (`Call`, `CallCode`, `DelegateCall`,
`StaticCall`) and in `create`, with the firehose context enabled, the
`StartCall` emission opens the frame's event list and is followed by exactly
one terminal emission (`EndCall` or `EndFailedCall`), which closes the list,
on every return path — including the early exits for depth limit,
insufficient balance, missing code and contract-address collision. -/
theorem call_variants_exactly_one_terminal
    (d vz ct ae ip e158 ce no col hom : Bool) (gas : Nat) (run : RunOutcome) :
    oneTerminal (EVM.Call true d vz ct ae ip e158 ce gas run).1 "CALL" ∧
    oneTerminal (EVM.CallCode true d ct gas run).1 "CALLCODE" ∧
    oneTerminal (EVM.DelegateCall true d gas run).1 "DELEGATE" ∧
    oneTerminal (EVM.StaticCall true d gas run).1 "STATIC" ∧
    oneTerminal (EVM.create true d ct no col hom gas run).1 "CREATE" :=
  ⟨EVMCall_oneTerminal d vz ct ae ip e158 ce gas run,
   EVMCallCode_oneTerminal d ct gas run,
   EVMDelegateCall_oneTerminal d gas run,
   EVMStaticCall_oneTerminal d gas run,
   EVMcreate_oneTerminal d ct no col hom gas run⟩

set_option maxHeartbeats 3000000 in
/-- Claim C3: in every EVM call variant with firehose enabled, on any path
that actually ran the callee, an interpreter error other than
`ErrExecutionReverted` makes the variant emit `RecordGasConsume` with the
full remaining gas under `FailedExecutionGasChangeReason` and return leftover
gas 0 to the caller (burn-all), while exactly `ErrExecutionReverted` makes it
emit `RecordCallReverted` and preserve and return the remaining gas
(refund-remaining), never emitting the failed-execution gas burn. -/
theorem call_variants_burn_or_refund
    (vz ct ae ip e158 ce : Bool) (gas : Nat) (run : RunOutcome)
    (hbal : (!vz && !ct) = false)
    (h158 : (!ae && !ip && e158 && vz) = false)
    (hbody : (ip || !ce) = true)
    (hct : ct = true) :
    (∀ e, run.err = some e → e ≠ VMErr.executionReverted →
      (FireEvent.recordGasConsume run.gasAfter run.gasAfter FailedExecutionGasChangeReason
          ∈ (EVM.Call true false vz ct ae ip e158 ce gas run).1 ∧
        (EVM.Call true false vz ct ae ip e158 ce gas run).2.1 = 0) ∧
      (FireEvent.recordGasConsume run.gasAfter run.gasAfter FailedExecutionGasChangeReason
          ∈ (EVM.CallCode true false ct gas run).1 ∧
        (EVM.CallCode true false ct gas run).2.1 = 0) ∧
      (FireEvent.recordGasConsume run.gasAfter run.gasAfter FailedExecutionGasChangeReason
          ∈ (EVM.DelegateCall true false gas run).1 ∧
        (EVM.DelegateCall true false gas run).2.1 = 0) ∧
      (FireEvent.recordGasConsume run.gasAfter run.gasAfter FailedExecutionGasChangeReason
          ∈ (EVM.StaticCall true false gas run).1 ∧
        (EVM.StaticCall true false gas run).2.1 = 0)) ∧
    (run.err = some VMErr.executionReverted →
      (FireEvent.recordCallReverted ∈ (EVM.Call true false vz ct ae ip e158 ce gas run).1 ∧
        (EVM.Call true false vz ct ae ip e158 ce gas run).2.1 = run.gasAfter ∧
        FireEvent.recordGasConsume run.gasAfter run.gasAfter FailedExecutionGasChangeReason
          ∉ (EVM.Call true false vz ct ae ip e158 ce gas run).1) ∧
      (FireEvent.recordCallReverted ∈ (EVM.CallCode true false ct gas run).1 ∧
        (EVM.CallCode true false ct gas run).2.1 = run.gasAfter) ∧
      (FireEvent.recordCallReverted ∈ (EVM.DelegateCall true false gas run).1 ∧
        (EVM.DelegateCall true false gas run).2.1 = run.gasAfter) ∧
      (FireEvent.recordCallReverted ∈ (EVM.StaticCall true false gas run).1 ∧
        (EVM.StaticCall true false gas run).2.1 = run.gasAfter)) := by
  obtain ⟨g, err⟩ := run
  subst hct
  constructor
  · intro e herr hne
    simp only at herr
    subst herr
    refine ⟨?_, ?_, ?_, ?_⟩
    · rcases e with _ | _ | m
      · exact absurd rfl hne
      · cases vz <;> cases ae <;> cases ip <;> cases e158 <;> cases ce <;>
          simp_all [EVM.Call, callErrEpilogue, errText]
      · cases vz <;> cases ae <;> cases ip <;> cases e158 <;> cases ce <;>
          simp_all [EVM.Call, callErrEpilogue, errText]
    · rcases e with _ | _ | m
      · exact absurd rfl hne
      · simp [EVM.CallCode, callErrEpilogue, errText]
      · simp [EVM.CallCode, callErrEpilogue, errText]
    · rcases e with _ | _ | m
      · exact absurd rfl hne
      · simp [EVM.DelegateCall, callErrEpilogue, errText]
      · simp [EVM.DelegateCall, callErrEpilogue, errText]
    · rcases e with _ | _ | m
      · exact absurd rfl hne
      · simp [EVM.StaticCall, callErrEpilogue, errText]
      · simp [EVM.StaticCall, callErrEpilogue, errText]
  · intro herr
    simp only at herr
    subst herr
    refine ⟨?_, ?_, ?_, ?_⟩
    · cases vz <;> cases ae <;> cases ip <;> cases e158 <;> cases ce <;>
        simp_all [EVM.Call, callErrEpilogue, errText]
    · simp [EVM.CallCode, callErrEpilogue, errText]
    · simp [EVM.DelegateCall, callErrEpilogue, errText]
    · simp [EVM.StaticCall, callErrEpilogue, errText]

/-- Witness for C3: a reverting run (gas preserved) and an assert-style
failing run (gas burned) at concrete parameters. -/
theorem call_variants_burn_or_refund_witness :
    (FireEvent.recordCallReverted
        ∈ (EVM.Call true false true true true false false false 7
            { gasAfter := 5, err := some VMErr.executionReverted }).1 ∧
      (EVM.Call true false true true true false false false 7
          { gasAfter := 5, err := some VMErr.executionReverted }).2.1 = 5) ∧
    (FireEvent.recordGasConsume 5 5 FailedExecutionGasChangeReason
        ∈ (EVM.Call true false true true true false false false 7
            { gasAfter := 5, err := some (VMErr.other "out of gas") }).1 ∧
      (EVM.Call true false true true true false false false 7
          { gasAfter := 5, err := some (VMErr.other "out of gas") }).2.1 = 0) := by
  constructor
  · have h := (call_variants_burn_or_refund true true true false false false 7
      { gasAfter := 5, err := some VMErr.executionReverted }
      (by decide) (by decide) (by decide) rfl).2 rfl
    exact ⟨h.1.1, h.1.2.1⟩
  · have h := ((call_variants_burn_or_refund true true true false false false 7
      { gasAfter := 5, err := some (VMErr.other "out of gas") }
      (by decide) (by decide) (by decide) rfl).1 (VMErr.other "out of gas") rfl
      (by intro hcontra; exact absurd hcontra (by simp))).1
    exact h

/-- Counterexample for C8: in a block of two successfully-applying
transactions, `Process` creates the speculative execution context exactly
once (before the loop), not once before each transaction as the claim
states. -/
theorem speculative_context_counterexample :
    (Process true false [none, none]).1.count ProcessEvent.createSpeculativeCtx = 1 ∧
    ¬((Process true false [none, none]).1.count ProcessEvent.createSpeculativeCtx =
      ([none, none] : List (Option String)).length) := by
  decide

/-- Amended C8: a single transaction-scoped speculative context wrapping the
reset, reused `TxSyncBuffer` is created once per block, before the first
transaction (immediately after `StartBlock`); wrapping the buffer resets it,
so the buffer is empty when the block's first transaction starts, and all of
the block's transactions record into this one private buffer. -/
theorem speculative_context_once_per_block (bp : Bool) (txs : List (Option String)) :
    (Process true bp txs).1.count ProcessEvent.createSpeculativeCtx = 1 ∧
    (∃ l, (Process true bp txs).1 =
      ProcessEvent.startBlock :: ProcessEvent.createSpeculativeCtx :: l) ∧
    ∀ buf : List Char, (NewToBufferPrinterWithBuffer buf).buffer = [] := by
  have hloop : ProcessEvent.createSpeculativeCtx ∉ (processTxs true 0 txs).1 := by
    intro hmem
    rcases processTxs_event_shape true txs 0 _ hmem with ⟨j, hj | hj | hj⟩ <;> simp at hj
  refine ⟨?_, ⟨_, rfl⟩, fun buf => rfl⟩
  simp only [Process]
  rw [List.count_append, List.count_append]
  have h1 : (processHead true).count ProcessEvent.createSpeculativeCtx = 1 := by decide
  have h2 : (processTxs true 0 txs).1.count ProcessEvent.createSpeculativeCtx = 0 :=
    List.count_eq_zero.mpr hloop
  have h3 : (match (processTxs true 0 txs).2 with
      | some _ => ([] : List ProcessEvent)
      | none => processFin true bp).count ProcessEvent.createSpeculativeCtx = 0 := by
    cases (processTxs true 0 txs).2 with
    | none => cases bp <;> rfl
    | some e => rfl
  rw [h1, h2, h3]

/-! ### Genesis validation reporter (`ReportHeaderComparisonResult`)

The reporter prints, after a fixed prose preamble (not modelled, it carries
no comparison marker), one line per compared field with the marker `==` or
`!=` computed from the equality of the two rendered values.  The rendering
functions (`common.Hash.String`, `common.Address.String`,
`strconv.FormatUint`, `hex.EncodeToString`, `big.Int.String`) live outside
the extracted sources; they are embedded as injective renderings, so that
the marker they induce agrees with the real one.  The EIP-55 mixed-case
checksum of `Address.String` is elided: only equality of renderings feeds
the marker, and the checksummed rendering of two addresses is equal iff the
addresses are equal. -/

/-- Decimal digit character of `d % 10`. -/
def decDigitChar (d : Nat) : Char :=
  Char.ofNat (48 + d % 10)

/-- Decimal digit characters of `n`, most significant first, with structural
fuel (`decDigits` instantiates it); models `strconv.FormatUint(n, 10)`. -/
def decDigitsAux : Nat → Nat → List Char
  | 0, _ => []
  | fuel + 1, n =>
    if n < 10 then [decDigitChar n]
    else decDigitsAux fuel (n / 10) ++ [decDigitChar (n % 10)]

/-- Decimal digit characters of `n`. -/
def decDigits (n : Nat) : List Char :=
  decDigitsAux (n + 1) n

/-- `strconv.FormatUint(n, 10)`. -/
def uintString (n : Nat) : String :=
  String.mk (decDigits n)

lemma decDigitChar_toNat (d : Nat) : (decDigitChar d).toNat = 48 + d % 10 := by
  have h : d % 10 < 10 := Nat.mod_lt _ (by omega)
  have hval : ∀ m, m < 10 → (Char.ofNat (48 + m)).toNat = 48 + m := by decide
  rw [decDigitChar]
  exact hval _ h

lemma decDigitsAux_spec : ∀ fuel n acc, n ≤ fuel →
    (decDigitsAux fuel n).foldl (fun a c => a * 10 + (c.toNat - 48)) acc =
      acc * 10 ^ (decDigitsAux fuel n).length + n := by
  intro fuel
  induction fuel with
  | zero =>
    intro n acc hn
    have hz : n = 0 := by omega
    subst hz
    simp [decDigitsAux]
  | succ f ih =>
    intro n acc hn
    by_cases h10 : n < 10
    · rw [decDigitsAux, if_pos h10]
      simp only [List.foldl_cons, List.foldl_nil, List.length_cons,
        List.length_nil, decDigitChar_toNat]
      have hmod : n % 10 = n := Nat.mod_eq_of_lt h10
      rw [hmod]
      simp [pow_one]
    · rw [decDigitsAux, if_neg h10]
      rw [List.foldl_append]
      rw [ih (n / 10) acc (by omega)]
      simp only [List.foldl_cons, List.foldl_nil, List.length_append,
        List.length_cons, List.length_nil, decDigitChar_toNat, Nat.zero_add,
        Nat.add_zero]
      have hdm : n / 10 * 10 + n % 10 = n := by omega
      have hsub : 48 + n % 10 % 10 - 48 = n % 10 := by omega
      rw [hsub]
      calc (acc * 10 ^ (decDigitsAux f (n / 10)).length + n / 10) * 10 + n % 10
          = acc * 10 ^ (decDigitsAux f (n / 10)).length * 10 +
              (n / 10 * 10 + n % 10) := by ring
        _ = acc * 10 ^ (decDigitsAux f (n / 10)).length * 10 + n := by rw [hdm]
        _ = acc * 10 ^ ((decDigitsAux f (n / 10)).length + 1) + n := by
              rw [pow_succ]; ring

lemma decDigits_inj (m n : Nat) (h : decDigits m = decDigits n) : m = n := by
  have hm := decDigitsAux_spec (m + 1) m 0 (by omega)
  have hn := decDigitsAux_spec (n + 1) n 0 (by omega)
  rw [show decDigitsAux (m + 1) m = decDigits m from rfl] at hm
  rw [show decDigitsAux (n + 1) n = decDigits n from rfl] at hn
  rw [h] at hm
  simp only [Nat.zero_mul, Nat.zero_add] at hm hn
  exact hm.symm.trans hn

lemma String_mk_inj {l1 l2 : List Char} (h : String.mk l1 = String.mk l2) :
    l1 = l2 := by
  injection h

lemma uintString_inj (m n : Nat) (h : uintString m = uintString n) : m = n :=
  decDigits_inj m n (String_mk_inj h)

/-- The fields of `types.Header` compared by the genesis reporter.  Hashes,
addresses and byte slices are byte lists; `difficulty` is `none` for a nil
`*big.Int`. -/
structure Header where
  number : Nat
  parentHash : List Nat
  uncleHash : List Nat
  coinbase : List Nat
  root : List Nat
  txHash : List Nat
  receiptHash : List Nat
  bloom : List Nat
  difficulty : Option Int
  gasLimit : Nat
  gasUsed : Nat
  time : Nat
  extra : List Nat
  mixDigest : List Nat
  nonce : Nat
deriving DecidableEq

/-- `common.Hash.String()`: `0x`-prefixed lowercase hex. -/
def hashString (h : List Nat) : String :=
  "0x" ++ hexEncodeToString h

/-- `common.Address.String()` up to the elided EIP-55 casing (see the section
comment): `0x`-prefixed hex. -/
def addressString (a : List Nat) : String :=
  "0x" ++ hexEncodeToString a

/-- `hex.EncodeToString` as used for `Bloom` and `Extra`. -/
def bytesString (bs : List Nat) : String :=
  hexEncodeToString bs

/-- The `compareBigInt` rendering: `"<nil>"` for a nil pointer, otherwise
`big.Int.String()` (decimal). -/
def bigIntString : Option Int → String
  | none => "<nil>"
  | some d => toString d

/-- The concatenated rendering of every header field other than `gasUsed`,
used by the modelled header hash. -/
def headerRestChars (h : Header) : List Char :=
  decDigits h.number ++ hexChars h.parentHash ++ hexChars h.uncleHash ++
  hexChars h.coinbase ++ hexChars h.root ++ hexChars h.txHash ++
  hexChars h.receiptHash ++ hexChars h.bloom ++
  (bigIntString h.difficulty).data ++ decDigits h.gasLimit ++
  decDigits h.time ++ hexChars h.extra ++ hexChars h.mixDigest ++
  decDigits h.nonce

/-- Modelled from the spec: the first compared line renders
`actual.Hash().String()` and `expected.Hash().String()`, where
`types.Header.Hash` recomputes the keccak-256 of the RLP encoding of all
header fields (`types.Header.Hash`, the RLP encoder and keccak are outside
the extracted sources).  The hash is modelled as an injective-in-`gasUsed`
rendering of all the header fields: like the real recomputed hash, it
distinguishes two headers that differ only in `gasUsed` (for keccak this
holds absent a hash collision); the `gasUsed` digits are emitted first so
that this distinguishing property is provable by list cancellation. -/
def headerHashString (h : Header) : String :=
  String.mk (decDigits h.gasUsed ++ headerRestChars h)

/-- One printed comparison line: field name, rendered actual value, marker
(`==` when the two renderings are equal, otherwise `!=`), rendered expected
value. -/
structure ReportLine where
  field : String
  actualText : String
  sign : String
  expectedText : String
deriving DecidableEq

/-- The closure returned by `fieldComparisonReporter`, applied to one field. -/
def fieldComparisonLine (f sa se : String) : ReportLine :=
  { field := f, actualText := sa, sign := if sa = se then "==" else "!=",
    expectedText := se }

/-- `ReportHeaderComparisonResult` (`firehose/printer.go`): the ordered field
comparison lines (the prose preamble lines carry no marker and are not
modelled). -/
def ReportHeaderComparisonResult (actual expected : Header) : List ReportLine :=
  [fieldComparisonLine "Hash" (headerHashString actual) (headerHashString expected),
   fieldComparisonLine "Number" (uintString actual.number) (uintString expected.number),
   fieldComparisonLine "ParentHash" (hashString actual.parentHash) (hashString expected.parentHash),
   fieldComparisonLine "UncleHash" (hashString actual.uncleHash) (hashString expected.uncleHash),
   fieldComparisonLine "Coinbase" (addressString actual.coinbase) (addressString expected.coinbase),
   fieldComparisonLine "Root" (hashString actual.root) (hashString expected.root),
   fieldComparisonLine "TxHash" (hashString actual.txHash) (hashString expected.txHash),
   fieldComparisonLine "ReceiptHash" (hashString actual.receiptHash) (hashString expected.receiptHash),
   fieldComparisonLine "Bloom" (bytesString actual.bloom) (bytesString expected.bloom),
   fieldComparisonLine "Difficulty" (bigIntString actual.difficulty) (bigIntString expected.difficulty),
   fieldComparisonLine "GasLimit" (uintString actual.gasLimit) (uintString expected.gasLimit),
   fieldComparisonLine "GasUsed" (uintString actual.gasUsed) (uintString expected.gasUsed),
   fieldComparisonLine "Time" (uintString actual.time) (uintString expected.time),
   fieldComparisonLine "Extra" (bytesString actual.extra) (bytesString expected.extra),
   fieldComparisonLine "MixDigest" (hashString actual.mixDigest) (hashString expected.mixDigest),
   fieldComparisonLine "Nonce" (uintString actual.nonce) (uintString expected.nonce)]

/-- The field names of the lines carrying the mismatch marker `!=`, in print
order. -/
def mismatchFields : List ReportLine → List String
  | [] => []
  | l :: rest =>
    if l.sign = "!=" then l.field :: mismatchFields rest else mismatchFields rest

/-- Two headers that differ in `gasUsed` and agree on every other compared
field. -/
def differOnlyInGasUsed (a e : Header) : Prop :=
  a.number = e.number ∧ a.parentHash = e.parentHash ∧ a.uncleHash = e.uncleHash ∧
  a.coinbase = e.coinbase ∧ a.root = e.root ∧ a.txHash = e.txHash ∧
  a.receiptHash = e.receiptHash ∧ a.bloom = e.bloom ∧
  a.difficulty = e.difficulty ∧ a.gasLimit = e.gasLimit ∧ a.time = e.time ∧
  a.extra = e.extra ∧ a.mixDigest = e.mixDigest ∧ a.nonce = e.nonce ∧
  a.gasUsed ≠ e.gasUsed

instance (a e : Header) : Decidable (differOnlyInGasUsed a e) := by
  unfold differOnlyInGasUsed
  exact inferInstance

/-- A genesis header with all fields zeroed and `gasUsed = 1`. -/
def headerA : Header :=
  { number := 0, parentHash := [], uncleHash := [], coinbase := [], root := [],
    txHash := [], receiptHash := [], bloom := [], difficulty := none,
    gasLimit := 0, gasUsed := 1, time := 0, extra := [], mixDigest := [],
    nonce := 0 }

/-- `headerA` with `gasUsed = 2` instead. -/
def headerB : Header :=
  { headerA with gasUsed := 2 }

lemma mismatchFields_cons_eq (f s : String) (rest : List ReportLine) :
    mismatchFields (fieldComparisonLine f s s :: rest) = mismatchFields rest := by
  simp [fieldComparisonLine, mismatchFields]

lemma mismatchFields_cons_ne (f sa se : String) (h : sa ≠ se)
    (rest : List ReportLine) :
    mismatchFields (fieldComparisonLine f sa se :: rest) =
      f :: mismatchFields rest := by
  simp [fieldComparisonLine, mismatchFields, if_neg h]

/-- Counterexample for C5: for two concrete headers that differ only in
`gasUsed`, the report does not have `GasUsed` as its only mismatch line —
the first compared line renders the recomputed header hash, which depends on
`gasUsed`, so the `Hash` line carries `!=` as well. -/
theorem genesis_report_counterexample :
    differOnlyInGasUsed headerA headerB ∧
    mismatchFields (ReportHeaderComparisonResult headerA headerB) =
      ["Hash", "GasUsed"] ∧
    ¬(mismatchFields (ReportHeaderComparisonResult headerA headerB) =
      ["GasUsed"]) := by
  decide

/-- Amended C5: for every pair of headers differing only in `gasUsed`, the
report carries the mismatch marker `!=` on exactly the `Hash` line (the
recomputed header hash depends on `gasUsed`) and the `GasUsed` line, in that
order; every other compared field's line carries `==`. -/
theorem genesis_report_mismatch_lines (a e : Header)
    (h : differOnlyInGasUsed a e) :
    mismatchFields (ReportHeaderComparisonResult a e) = ["Hash", "GasUsed"] := by
  obtain ⟨h1, h2, h3, h4, h5, h6, h7, h8, h9, h10, h11, h12, h13, h14, hne⟩ := h
  have hrest : headerRestChars a = headerRestChars e := by
    unfold headerRestChars
    rw [h1, h2, h3, h4, h5, h6, h7, h8, h9, h10, h11, h12, h13, h14]
  have hhash : headerHashString a ≠ headerHashString e := by
    intro hcontra
    apply hne
    have hdata := String_mk_inj hcontra
    rw [hrest] at hdata
    exact decDigits_inj _ _ (List.append_cancel_right hdata)
  have hgas : uintString a.gasUsed ≠ uintString e.gasUsed := by
    intro hcontra
    exact hne (uintString_inj _ _ hcontra)
  rw [ReportHeaderComparisonResult, h1, h2, h3, h4, h5, h6, h7, h8, h9, h10,
    h11, h12, h13, h14]
  rw [mismatchFields_cons_ne _ _ _ hhash]
  rw [mismatchFields_cons_eq, mismatchFields_cons_eq, mismatchFields_cons_eq,
    mismatchFields_cons_eq, mismatchFields_cons_eq, mismatchFields_cons_eq,
    mismatchFields_cons_eq, mismatchFields_cons_eq, mismatchFields_cons_eq,
    mismatchFields_cons_eq]
  rw [mismatchFields_cons_ne _ _ _ hgas]
  rw [mismatchFields_cons_eq, mismatchFields_cons_eq, mismatchFields_cons_eq,
    mismatchFields_cons_eq]
  rfl

/-- Witness for the amended C5 at the concrete header pair. -/
theorem genesis_report_mismatch_lines_witness :
    mismatchFields (ReportHeaderComparisonResult headerA headerB) =
      ["Hash", "GasUsed"] :=
  genesis_report_mismatch_lines headerA headerB (by decide)
